import Mathlib

/-
Verification of the File Vault application (src/app.py) against its
specification.  The first half embeds the in-memory catalog (the "index"
dict), its record operations and the upload/delete button handlers; the
second half embeds the Cloudinary-backed index store, i.e. the exact
serialization produced by json.dumps(index, ensure_ascii=False, indent=2)
and the JSON parse performed on load, together with a round-trip proof.
-/

/-- Characters removed by Python's default `str.strip` (Unicode whitespace:
the ASCII whitespace range 9..13, the separators 28..32, NEL 133, NBSP 160,
and the Unicode space characters). -/
def pyIsSpace (c : Char) : Bool :=
  (9 ≤ c.toNat && c.toNat ≤ 13) || (28 ≤ c.toNat && c.toNat ≤ 32) ||
  c.toNat == 133 || c.toNat == 160 || c.toNat == 5760 ||
  (8192 ≤ c.toNat && c.toNat ≤ 8202) || c.toNat == 8232 || c.toNat == 8233 ||
  c.toNat == 8239 || c.toNat == 8287 || c.toNat == 12288

/-- Python `s.strip()`: drop leading and trailing whitespace. -/
def pyStrip (s : String) : String :=
  ⟨((s.data.dropWhile pyIsSpace).reverse.dropWhile pyIsSpace).reverse⟩

/-- Lowercasing of one character, as Python `str.lower` acts on the ASCII
range (A-Z to a-z).  Python additionally lowercases non-ASCII letters;
those are outside the `safe_filename` allowed charset both before and
after lowering, so the difference is irrelevant to the properties below,
which are stated over this definition on both sides. -/
def lowerChar (c : Char) : Char :=
  if 65 ≤ c.toNat ∧ c.toNat ≤ 90 then Char.ofNat (c.toNat + 32) else c

/-- Python `s.lower()` (ASCII range, see `lowerChar`). -/
def pyLower (s : String) : String := ⟨s.data.map lowerChar⟩

/-- Is `needle` a prefix of `hay`? -/
def isPrefixList : List Char → List Char → Bool
  | a :: as, b :: bs => a == b && isPrefixList as bs
  | [], _ => true
  | _, [] => false

/-- Is `needle` a contiguous substring of `hay`?  Models Python's
`needle in hay` on strings. -/
def containsSub (needle : List Char) (hay : List Char) : Bool :=
  match hay with
  | [] => isPrefixList needle []
  | _ :: t => isPrefixList needle hay || containsSub needle t

/-- Python `needle in hay` for strings. -/
def pyIn (needle hay : String) : Bool := containsSub needle.data hay.data

/-- Python `" ".join(tags)`. -/
def joinSpace : List String → String
  | [] => ""
  | [t] => t
  | t :: ts => t ++ (" ") ++ joinSpace ts

/-- The character set `safe_filename` keeps
(`abcdefghijklmnopqrstuvwxyzABCDEFGHIJKLMNOPQRSTUVWXYZ0123456789._-`),
written with code points: 97..122 is a-z, 65..90 is A-Z, 48..57 is 0-9. -/
def allowedChar (c : Char) : Bool :=
  (97 ≤ c.toNat && c.toNat ≤ 122) || (65 ≤ c.toNat && c.toNat ≤ 90) ||
  (48 ≤ c.toNat && c.toNat ≤ 57) || c == '.' || c == '_' || c == '-'

/-- `safe_filename` from src/app.py: strip, replace spaces by underscores
(a single-character replace, hence a per-character map), then replace every
character outside the allowed set by an underscore. -/
def safe_filename (name : String) : String :=
  ⟨((pyStrip name).data.map (fun c => if c = ' ' then '_' else c)).map
      (fun c => if allowedChar c then c else '_')⟩

/-- Scope normalization performed by the upload form:
`scope = text.strip().lower()` then `scope = safe_filename(scope) or "general"`
(the empty string is falsy in Python, so it is replaced by `"general"`). -/
def normalizeScope (raw : String) : String :=
  if safe_filename (pyLower (pyStrip raw)) = ("") then ("general")
  else safe_filename (pyLower (pyStrip raw))

/-- The lowercase-and-filesystem-safe character set claimed for stored
scopes: a-z (97..122), digits (48..57), dot, underscore, hyphen. -/
def scopeCharOK (c : Char) : Bool :=
  (97 ≤ c.toNat && c.toNat ≤ 122) || (48 ≤ c.toNat && c.toNat ≤ 57) ||
  c == '.' || c == '_' || c == '-'

/-- The `record["cloudinary"]` sub-dict built by the upload handler.  The
optional fields model `upload_res.get(...)`, which yields `None` when the
provider response lacks the key. -/
structure CloudinaryMeta where
  public_id : Option String
  secure_url : Option String
  bytes : Int
  resource_type : Option String
  format : Option String
deriving DecidableEq

/-- One catalog record, with exactly the keys the upload handler writes. -/
structure FileRecord where
  id : String
  scope : String
  original_name : String
  uploaded_at : String
  tags : List String
  cloudinary : CloudinaryMeta
deriving DecidableEq

/-- The in-memory index dict.  `files?` is `none` when the `"files"` key is
absent, mirroring that `add_file_record` must `setdefault` it and
`delete_file_record` reads it through `index.get("files", [])`. -/
structure IndexDict where
  files? : Option (List FileRecord)
deriving DecidableEq

/-- The files list of the index, as `index.get("files", [])` sees it. -/
def IndexDict.filesD (index : IndexDict) : List FileRecord :=
  index.files?.getD []

/-- `add_file_record(index, record)`:
`index.setdefault("files", []); index["files"].insert(0, record)`. -/
def add_file_record (index : IndexDict) (record : FileRecord) : IndexDict :=
  { files? := some (record :: index.filesD) }

/-- `delete_file_record(index, file_id)`:
`index["files"] = [f for f in index.get("files", []) if f.get("id") != file_id]`. -/
def delete_file_record (index : IndexDict) (file_id : String) : IndexDict :=
  { files? := some (index.filesD.filter (fun f => f.id != file_id)) }

/-- `matches(rec, query)` from src/app.py: an empty query matches
everything; otherwise the query is lowercased and stripped and tested as a
substring of the lowercased name, space-joined tags, and scope. -/
def matchesRec (rec : FileRecord) (query : String) : Bool :=
  if query = ("") then true
  else
    let q := pyStrip (pyLower query)
    let name := pyLower rec.original_name
    let tags := pyLower (joinSpace rec.tags)
    let scope := pyLower rec.scope
    pyIn q name || pyIn q tags || pyIn q scope

/-- The scope test of the listing loop: the record is skipped when
`scope_filter != "(todas)" and f.get("scope", "general") != scope_filter`. -/
def scopeKeep (scope_filter : String) (f : FileRecord) : Bool :=
  !(scope_filter != ("(todas)") && f.scope != scope_filter)

/-- The listing loop of src/app.py: keep the records passing the scope
filter and `matches`. -/
def listing (files : List FileRecord) (scope_filter q : String) : List FileRecord :=
  files.filter (fun f => scopeKeep scope_filter f && matchesRec f q)

/-- `all_scopes` from src/app.py:
`sorted(list({f.get("scope", "general") for f in files})) if files else []`. -/
def all_scopes (files : List FileRecord) : List String :=
  match files with
  | [] => []
  | _ :: _ =>
      List.insertionSort (fun a b : String => a ≤ b)
        ((files.map (fun f => f.scope)).dedup)

/-- Tag parsing of the upload handler:
`[t.strip() for t in tags_txt.split(",") if t.strip()]`. -/
def splitTags (tags_txt : String) : List String :=
  ((tags_txt.splitOn (",")).map pyStrip).filter (fun t => t != (""))

/-- The fields of a Cloudinary upload response that the handler reads
through `.get`. -/
structure UploadRes where
  public_id : Option String
  secure_url : Option String
  bytes? : Option Int
  resource_type : Option String
  format : Option String
deriving DecidableEq

/-- The record dict built by the upload handler after a successful `put`.
`bytes` is `int(upload_res.get("bytes", len(data)))`. -/
def mkRecord (file_id scope original_name uploaded_at tags_txt : String)
    (res : UploadRes) (dataLen : Int) : FileRecord :=
  { id := file_id, scope := scope, original_name := original_name,
    uploaded_at := uploaded_at, tags := splitTags tags_txt,
    cloudinary :=
      { public_id := res.public_id, secure_url := res.secure_url,
        bytes := res.bytes?.getD dataLen,
        resource_type := res.resource_type, format := res.format } }

/-- Result of one mutating button handler: the in-memory index afterwards,
whether `upload_index_to_cloudinary` was reached, and the `st.error`
message if an exception was caught. -/
structure MutationOutcome where
  newIdx : IndexDict
  saveAttempted : Bool
  errorMsg : Option String
deriving DecidableEq

/-- The upload button handler (src/app.py lines 235-266).  `put` is the
outcome of `cloudinary_upload_file` and `save` the outcome of
`upload_index_to_cloudinary`; `Except.error` models a raised exception,
which the surrounding `try` turns into `st.error(f"Error subiendo a
Cloudinary: ...")`.  On a put failure nothing was mutated; on a save
failure the in-memory index has already been mutated. -/
def uploadHandler (idx : IndexDict) (put : Except String UploadRes)
    (save : Except String Unit)
    (file_id scope original_name uploaded_at tags_txt : String)
    (dataLen : Int) : MutationOutcome :=
  match put with
  | .error e =>
      { newIdx := idx, saveAttempted := false,
        errorMsg := some (("Error subiendo a Cloudinary: ") ++ e) }
  | .ok res =>
      let idx2 := add_file_record idx
        (mkRecord file_id scope original_name uploaded_at tags_txt res dataLen)
      match save with
      | .error e =>
          { newIdx := idx2, saveAttempted := true,
            errorMsg := some (("Error subiendo a Cloudinary: ") ++ e) }
      | .ok _ => { newIdx := idx2, saveAttempted := true, errorMsg := none }

/-- The delete button handler (src/app.py lines 326-334).  The `try` block
first calls `cloudinary_delete_asset` (only when `public_id` is truthy,
i.e. nonempty), then `delete_file_record`, then
`upload_index_to_cloudinary`; any exception jumps to
`st.error(f"No se pudo borrar: ...")`. -/
def deleteHandler (idx : IndexDict) (blobDelete save : Except String Unit)
    (public_id file_id : String) : MutationOutcome :=
  let rest : MutationOutcome :=
    let idx2 := delete_file_record idx file_id
    match save with
    | .error e =>
        { newIdx := idx2, saveAttempted := true,
          errorMsg := some (("No se pudo borrar: ") ++ e) }
    | .ok _ => { newIdx := idx2, saveAttempted := true, errorMsg := none }
  if public_id != ("") then
    match blobDelete with
    | .error e =>
        { newIdx := idx, saveAttempted := false,
          errorMsg := some (("No se pudo borrar: ") ++ e) }
    | .ok _ => rest
  else rest

/-- The search predicate exactly as the claim words it (no normalization of
the query beyond lowercasing): scope filter passes, and the query is empty
or a case-insensitive substring of the name, the space-joined tags, or the
scope. -/
def claimMatches (rec : FileRecord) (query : String) : Bool :=
  query == ("")
  || pyIn (pyLower query) (pyLower rec.original_name)
  || pyIn (pyLower query) (pyLower (joinSpace rec.tags))
  || pyIn (pyLower query) (pyLower rec.scope)

/-- Scope filtering as the claim words it. -/
def claimScopeKeep (scope_filter : String) (rec : FileRecord) : Bool :=
  scope_filter == ("(todas)") || rec.scope == scope_filter

/-- Search as the claim words it. -/
def searchClaim (files : List FileRecord) (scope_filter q : String) :
    List FileRecord :=
  files.filter (fun f => claimScopeKeep scope_filter f && claimMatches f q)

/-- The amended search predicate: identical to the claim's wording except
that the query is first lowercased and stripped of surrounding whitespace
(so a query that strips to empty matches everything). -/
def amendedMatches (rec : FileRecord) (query : String) : Bool :=
  query == ("")
  || (let q := pyStrip (pyLower query)
      pyIn q (pyLower rec.original_name)
      || pyIn q (pyLower (joinSpace rec.tags))
      || pyIn q (pyLower rec.scope))

/-- A concrete catalog record used for witnesses and counterexamples. -/
def sampleRec (idv scopev namev : String) : FileRecord :=
  { id := idv, scope := scopev, original_name := namev,
    uploaded_at := ("2024-01-01T00:00:00"), tags := [],
    cloudinary :=
      { public_id := some ("pid"), secure_url := none, bytes := 10,
        resource_type := some ("raw"), format := none } }

/-- Opening curly bracket character (code point 123). -/
def lbrace : Char := '\x7b'

/-- Closing curly bracket character (code point 125). -/
def rbrace : Char := '\x7d'

mutual

/-- JSON values as produced and consumed by the index store.  Numbers are
integers: the only numbers the application writes are byte counts
(json.dumps of Python ints), and the parse model covers the integer
grammar (floats are out of scope of the index document format). -/
inductive Json where
  | null : Json
  | bool (b : Bool) : Json
  | num (n : Int) : Json
  | str (s : String) : Json
  | arr (items : JsonArr) : Json
  | obj (fields : JsonObj) : Json
deriving DecidableEq

/-- A JSON array, as a sequence of values. -/
inductive JsonArr where
  | nil : JsonArr
  | cons (hd : Json) (tl : JsonArr) : JsonArr
deriving DecidableEq

/-- A JSON object, as an ordered sequence of key-value fields (Python
dicts have unique keys and preserve insertion order). -/
inductive JsonObj where
  | nil : JsonObj
  | cons (key : String) (val : Json) (tl : JsonObj) : JsonObj
deriving DecidableEq

end

/-- Decimal digit character for `n < 10`. -/
def digitChar (n : Nat) : Char := Char.ofNat (48 + n)

/-- Decimal digits of a natural number, most significant first. -/
def natChars (n : Nat) : List Char :=
  if n < 10 then [digitChar n]
  else natChars (n / 10) ++ [digitChar (n % 10)]
decreasing_by exact Nat.div_lt_self (by omega) (by omega)

/-- Decimal notation of an integer, as Python prints an int. -/
def intChars (n : Int) : List Char :=
  if n < 0 then '-' :: natChars n.natAbs else natChars n.toNat

/-- Lowercase hexadecimal digit for `n < 16`. -/
def hexChar (n : Nat) : Char :=
  if n < 10 then Char.ofNat (48 + n) else Char.ofNat (87 + n)

/-- json.dumps escaping of one character under ensure_ascii=False: named
escapes for backslash, quote, backspace, formfeed, newline, carriage
return and tab; a 4-hex-digit u-escape for the other control characters;
every other character is emitted as-is. -/
def escChar (c : Char) : List Char :=
  if c.toNat = 92 then ['\\', '\\']
  else if c.toNat = 34 then ['\\', '"']
  else if c.toNat = 8 then ['\\', 'b']
  else if c.toNat = 12 then ['\\', 'f']
  else if c.toNat = 10 then ['\\', 'n']
  else if c.toNat = 13 then ['\\', 'r']
  else if c.toNat = 9 then ['\\', 't']
  else if c.toNat < 32 then
    ['\\', 'u', '0', '0', hexChar (c.toNat / 16), hexChar (c.toNat % 16)]
  else [c]

/-- The escaped body of a JSON string followed by the closing quote. -/
def escapeString : List Char → List Char
  | [] => ['"']
  | c :: cs => escChar c ++ escapeString cs

/-- Two spaces per indentation level (json.dumps(..., indent=2)). -/
def indentChars (k : Nat) : List Char := List.replicate (2 * k) ' '

mutual

/-- The exact text json.dumps(v, ensure_ascii=False, indent=2) produces for
a value at indentation level `k`. -/
def printJson (k : Nat) : Json → List Char
  | .null => ("null").data
  | .bool b => if b then ("true").data else ("false").data
  | .num n => intChars n
  | .str s => '"' :: escapeString s.data
  | .arr .nil => ['[', ']']
  | .arr (.cons h t) =>
      '[' :: '\n' :: (indentChars (k + 1) ++ (printArrItems (k + 1) h t ++
        ('\n' :: (indentChars k ++ [']']))))
  | .obj .nil => [lbrace, rbrace]
  | .obj (.cons key v t) =>
      lbrace :: '\n' :: (indentChars (k + 1) ++ (printObjItems (k + 1) key v t ++
        ('\n' :: (indentChars k ++ [rbrace]))))
termination_by j => sizeOf j

/-- Array items separated by a comma, newline and indentation. -/
def printArrItems (k : Nat) (h : Json) : JsonArr → List Char
  | .nil => printJson k h
  | .cons h2 t =>
      printJson k h ++ (',' :: '\n' :: (indentChars k ++ printArrItems k h2 t))
termination_by t => 1 + sizeOf h + sizeOf t

/-- Object fields `"key": value` separated by a comma, newline and
indentation. -/
def printObjItems (k : Nat) (key : String) (v : Json) : JsonObj → List Char
  | .nil => '"' :: (escapeString key.data ++ (':' :: ' ' :: printJson k v))
  | .cons k2 v2 t =>
      ('"' :: (escapeString key.data ++ (':' :: ' ' :: printJson k v))) ++
        (',' :: '\n' :: (indentChars k ++ printObjItems k k2 v2 t))
termination_by t => 1 + sizeOf v + sizeOf t

end

/-- `json.dumps(index_data, ensure_ascii=False, indent=2)`. -/
def dumps (j : Json) : String := ⟨printJson 0 j⟩

/-- JSON whitespace (space, tab, newline, carriage return), as skipped by
Python's json scanner. -/
def jsonWs (c : Char) : Bool :=
  c == ' ' || c == '\t' || c == '\n' || c.toNat == 13

/-- Skip JSON whitespace. -/
def skipWs (cs : List Char) : List Char := cs.dropWhile jsonWs

/-- ASCII decimal digit test. -/
def isDigitB (c : Char) : Bool := 48 ≤ c.toNat && c.toNat ≤ 57

/-- Value of one hexadecimal digit (either case). -/
def parseHexDigit (c : Char) : Option Nat :=
  if 48 ≤ c.toNat ∧ c.toNat ≤ 57 then some (c.toNat - 48)
  else if 97 ≤ c.toNat ∧ c.toNat ≤ 102 then some (c.toNat - 87)
  else if 65 ≤ c.toNat ∧ c.toNat ≤ 70 then some (c.toNat - 55)
  else none

/-- Value of four hexadecimal digits. -/
def hex4 (a b c d : Char) : Option Nat := do
  let x ← parseHexDigit a
  let y ← parseHexDigit b
  let z ← parseHexDigit c
  let w ← parseHexDigit d
  some (((x * 16 + y) * 16 + z) * 16 + w)

mutual

/-- Parse the body of a JSON string after the opening quote, returning the
decoded characters and the remainder after the closing quote.  Unescaped
control characters are rejected (strict mode). -/
def parseStringBody : List Char → Option (List Char × List Char)
  | [] => none
  | c :: cs =>
    if c = '"' then some ([], cs)
    else if c = '\\' then parseEsc cs
    else if c.toNat < 32 then none
    else (parseStringBody cs).map (fun p => (c :: p.1, p.2))

/-- Decode one backslash escape: the named escapes (written by decoded
code point: 34 quote, 92 backslash, 47 slash, 8 backspace, 12 formfeed,
10 newline, 13 carriage return, 9 tab) or a u-escape. -/
def parseEsc : List Char → Option (List Char × List Char)
  | [] => none
  | e :: r =>
    if e = '"' then (parseStringBody r).map (fun p => (Char.ofNat 34 :: p.1, p.2))
    else if e = '\\' then (parseStringBody r).map (fun p => (Char.ofNat 92 :: p.1, p.2))
    else if e = '/' then (parseStringBody r).map (fun p => (Char.ofNat 47 :: p.1, p.2))
    else if e = 'b' then (parseStringBody r).map (fun p => (Char.ofNat 8 :: p.1, p.2))
    else if e = 'f' then (parseStringBody r).map (fun p => (Char.ofNat 12 :: p.1, p.2))
    else if e = 'n' then (parseStringBody r).map (fun p => (Char.ofNat 10 :: p.1, p.2))
    else if e = 'r' then (parseStringBody r).map (fun p => (Char.ofNat 13 :: p.1, p.2))
    else if e = 't' then (parseStringBody r).map (fun p => (Char.ofNat 9 :: p.1, p.2))
    else if e = 'u' then parseUEsc r
    else none

/-- Decode the four hex digits of a u-escape; surrogates must pair up (a
lone surrogate is rejected: Lean characters are unicode scalar values). -/
def parseUEsc : List Char → Option (List Char × List Char)
  | h1 :: h2 :: h3 :: h4 :: r2 =>
    (match hex4 h1 h2 h3 h4 with
    | none => none
    | some v =>
      if v < 55296 then
        (parseStringBody r2).map (fun p => (Char.ofNat v :: p.1, p.2))
      else if v ≤ 57343 then parsePairTail v r2
      else (parseStringBody r2).map (fun p => (Char.ofNat v :: p.1, p.2)))
  | _ => none

/-- Decode the low half of a surrogate pair following a high surrogate. -/
def parsePairTail (v : Nat) : List Char → Option (List Char × List Char)
  | b1 :: b2 :: g1 :: g2 :: g3 :: g4 :: r3 =>
    if b1 = '\\' ∧ b2 = 'u' then
      match hex4 g1 g2 g3 g4 with
      | some w =>
        if 55296 ≤ v ∧ v ≤ 56319 ∧ 56320 ≤ w ∧ w ≤ 57343 then
          (parseStringBody r3).map (fun p =>
            (Char.ofNat (65536 + (v - 55296) * 1024 + (w - 56320)) :: p.1, p.2))
        else none
      | none => none
    else none
  | _ => none

end

/-- Greedy run of decimal digits, accumulating their value. -/
def parseDigits : List Char → Nat → Nat × List Char
  | c :: cs, acc =>
      if isDigitB c then parseDigits cs (acc * 10 + (c.toNat - 48))
      else (acc, c :: cs)
  | [], acc => (acc, [])

/-- The natural-number part of a JSON number (no leading zeros except the
number 0 itself). -/
def parseNatPart : List Char → Option (Nat × List Char)
  | c :: cs =>
      if c = '0' then some (0, cs)
      else if isDigitB c then some (parseDigits cs (c.toNat - 48))
      else none
  | [] => none

/-- An optionally negated JSON integer. -/
def parseNumber (cs : List Char) : Option (Int × List Char) :=
  match cs with
  | c :: r =>
      if c = '-' then (parseNatPart r).map (fun p => (-(p.1 : Int), p.2))
      else (parseNatPart (c :: r)).map (fun p => ((p.1 : Int), p.2))
  | [] => none

mutual

/-- Recursive-descent JSON value parser (fuel bounds the recursion depth;
`parseJson` supplies more fuel than any input can consume). -/
def parseValue (fuel : Nat) (cs : List Char) : Option (Json × List Char) :=
  match fuel with
  | 0 => none
  | fuel + 1 =>
    match skipWs cs with
    | [] => none
    | c :: r =>
      if c = 'n' then
        match r with
        | 'u' :: 'l' :: 'l' :: r2 => some (.null, r2)
        | _ => none
      else if c = 't' then
        match r with
        | 'r' :: 'u' :: 'e' :: r2 => some (.bool true, r2)
        | _ => none
      else if c = 'f' then
        match r with
        | 'a' :: 'l' :: 's' :: 'e' :: r2 => some (.bool false, r2)
        | _ => none
      else if c = '"' then
        (parseStringBody r).map (fun p => (.str ⟨p.1⟩, p.2))
      else if c = '[' then
        match skipWs r with
        | d :: r2 =>
            if d = ']' then some (.arr .nil, r2)
            else (parseArrItems fuel r).map (fun p => (.arr p.1, p.2))
        | [] => none
      else if c = lbrace then
        match skipWs r with
        | d :: r2 =>
            if d = rbrace then some (.obj .nil, r2)
            else (parseObjItems fuel r).map (fun p => (.obj p.1, p.2))
        | [] => none
      else if c = '-' || isDigitB c then
        (parseNumber (c :: r)).map (fun p => (.num p.1, p.2))
      else none

/-- One or more comma-separated array items followed by the closing
bracket. -/
def parseArrItems (fuel : Nat) (cs : List Char) : Option (JsonArr × List Char) :=
  match fuel with
  | 0 => none
  | fuel + 1 =>
    match parseValue fuel cs with
    | none => none
    | some (v, r) =>
      match skipWs r with
      | [] => none
      | d :: r2 =>
        if d = ',' then (parseArrItems fuel r2).map (fun p => (.cons v p.1, p.2))
        else if d = ']' then some (.cons v .nil, r2)
        else none

/-- One or more comma-separated object fields followed by the closing
bracket. -/
def parseObjItems (fuel : Nat) (cs : List Char) : Option (JsonObj × List Char) :=
  match fuel with
  | 0 => none
  | fuel + 1 =>
    match skipWs cs with
    | [] => none
    | c :: r =>
      if c = '"' then
        match parseStringBody r with
        | none => none
        | some (key, r2) =>
          match skipWs r2 with
          | [] => none
          | d :: r3 =>
            if d = ':' then
              match parseValue fuel r3 with
              | none => none
              | some (v, r4) =>
                match skipWs r4 with
                | [] => none
                | e :: r5 =>
                  if e = ',' then
                    (parseObjItems fuel r5).map (fun p => (.cons ⟨key⟩ v p.1, p.2))
                  else if e = rbrace then some (.cons ⟨key⟩ v .nil, r5)
                  else none
            else none
      else none

end

/-- The JSON parse performed on the downloaded index (`r.json()`):
whitespace-tolerant, rejecting trailing data. -/
def parseJson (s : String) : Option Json :=
  match parseValue (s.length + 1) s.data with
  | some (j, rest) => if skipWs rest = [] then some j else none
  | none => none

mutual

/-- Fuel sufficient for `parseValue` to parse a printed value. -/
def fuelJ : Json → Nat
  | .null => 1
  | .bool _ => 1
  | .num _ => 1
  | .str _ => 1
  | .arr .nil => 1
  | .arr (.cons h t) => 1 + fuelA h t
  | .obj .nil => 1
  | .obj (.cons key v t) => 1 + fuelO key v t
termination_by j => sizeOf j

/-- Fuel sufficient for `parseArrItems` on printed items. -/
def fuelA (h : Json) : JsonArr → Nat
  | .nil => 1 + fuelJ h
  | .cons h2 t => 1 + fuelJ h + fuelA h2 t
termination_by t => 1 + sizeOf h + sizeOf t

/-- Fuel sufficient for `parseObjItems` on printed fields. -/
def fuelO (_key : String) (v : Json) : JsonObj → Nat
  | .nil => 1 + fuelJ v
  | .cons k2 v2 t => 1 + fuelJ v + fuelO k2 v2 t
termination_by t => 1 + sizeOf v + sizeOf t

end

/-- The index document holding a given files array:
`{"files": [...]}`. -/
def indexDocOf (records : JsonArr) : Json :=
  Json.obj (JsonObj.cons ("files") (Json.arr records) JsonObj.nil)

/-- The empty catalog document `{"files": []}`. -/
def emptyIndexDoc : Json := indexDocOf JsonArr.nil

/-- State of the Cloudinary backing store as the index-store functions see
it: the text stored at the fixed raw public id (`none` when the object has
never been written), plus failure switches for the fetch pipeline
(api.resource, secure_url, HTTP GET) and for uploads. -/
structure CloudState where
  indexBlob : Option String
  fetchFails : Bool
  saveFails : Bool
deriving DecidableEq

/-- `upload_index_to_cloudinary(index_data)`: serialize with
json.dumps(..., ensure_ascii=False, indent=2) and overwrite the fixed raw
asset; `none` models a raised exception.  The advisory local cache write
is not modeled: no claim concerns it and it is never read back by load. -/
def upload_index_to_cloudinary (st : CloudState) (index_data : Json) :
    Option CloudState :=
  if st.saveFails then none
  else some { st with indexBlob := some (dumps index_data) }

/-- `download_index_from_cloudinary()`: fetch the raw asset and parse it;
on any failure (object missing, fetch error, parse error) fall back to the
empty catalog, attempt to persist it, swallow a persist failure, and
return the empty catalog.  Returns the parsed document and the store
state afterwards. -/
def download_index_from_cloudinary (st : CloudState) : Json × CloudState :=
  let bootstrap : Json × CloudState :=
    match upload_index_to_cloudinary st emptyIndexDoc with
    | some st2 => (emptyIndexDoc, st2)
    | none => (emptyIndexDoc, st)
  if st.fetchFails then bootstrap
  else
    match st.indexBlob with
    | none => bootstrap
    | some s =>
      match parseJson s with
      | some j => (j, st)
      | none => bootstrap

/- ===== JSON-LAYER DEFINITIONS INSERTED ABOVE THIS LINE ===== -/

/-- Projection of `String.mk`. -/
theorem data_mk (l : List Char) : (String.mk l).data = l := rfl

/-- `Char.ofNat` followed by `Char.toNat` is the identity below the
surrogate range. -/
theorem charToNat_ofNat (n : Nat) (h : n < 55296) : (Char.ofNat n).toNat = n := by
  have hv : n.isValidChar := Or.inl h
  rw [Char.ofNat, dif_pos hv]
  simp [Char.ofNatAux, Char.toNat, UInt32.toNat, BitVec.toNat_ofNatLt]

/-- `lowerChar` never returns an ASCII uppercase letter. -/
theorem lowerChar_not_upper (c : Char) :
    ¬(65 ≤ (lowerChar c).toNat ∧ (lowerChar c).toNat ≤ 90) := by
  unfold lowerChar
  split
  · next h =>
      rw [charToNat_ofNat (c.toNat + 32) (by omega)]
      omega
  · next h => exact h

/-- Characters of a stripped string come from the original string. -/
theorem mem_pyStrip (s : String) (c : Char) (h : c ∈ (pyStrip s).data) :
    c ∈ s.data := by
  simp only [pyStrip, data_mk, List.mem_reverse] at h
  exact (List.dropWhile_sublist _).mem ((List.mem_reverse).mp ((List.dropWhile_sublist _).mem h))

/-- A character that `safe_filename` keeps and that is not ASCII uppercase
lies in the lowercase-safe scope charset. -/
theorem allowed_not_upper_scopeOK (c : Char) (hA : allowedChar c = true)
    (hU : ¬(65 ≤ c.toNat ∧ c.toNat ≤ 90)) : scopeCharOK c = true := by
  simp only [allowedChar, Bool.or_eq_true, Bool.and_eq_true, decide_eq_true_eq,
    beq_iff_eq] at hA
  simp only [scopeCharOK, Bool.or_eq_true, Bool.and_eq_true, decide_eq_true_eq,
    beq_iff_eq]
  rcases hA with ((((h | h) | h) | h) | h) | h
  · tauto
  · exact absurd h hU
  · tauto
  · tauto
  · tauto
  · tauto

/-- C8: for every user-supplied scope string, the stored scope is nonempty
and drawn from the lowercase filesystem-and-URL-safe charset (a-z, digits,
dot, underscore, hyphen); when the input strips to empty the scope falls
back to "general"; and "Cliente A" normalizes to "cliente_a". -/
theorem c8_scope_normalization (raw : String) :
    (normalizeScope raw ≠ ("")
      ∧ ∀ c ∈ (normalizeScope raw).data, scopeCharOK c = true)
    ∧ (pyStrip raw = ("") → normalizeScope raw = ("general"))
    ∧ normalizeScope ("Cliente A") = ("cliente_a") := by
  refine ⟨⟨?_, ?_⟩, ?_, by decide⟩
  · unfold normalizeScope
    split
    · decide
    · next h => exact h
  · intro c hc
    unfold normalizeScope at hc
    split at hc
    · have h7 : ("general").data = ['g', 'e', 'n', 'e', 'r', 'a', 'l'] := rfl
      rw [h7] at hc
      simp only [List.mem_cons, List.not_mem_nil, or_false] at hc
      rcases hc with rfl | rfl | rfl | rfl | rfl | rfl | rfl <;> decide
    · simp only [safe_filename, data_mk, List.mem_map] at hc
      obtain ⟨b, ⟨d, hd, hdb⟩, hcb⟩ := hc
      by_cases hA : allowedChar b = true
      · rw [if_pos hA] at hcb
        subst hcb
        refine allowed_not_upper_scopeOK b hA ?_
        subst hdb
        by_cases hsp : d = ' '
        · subst hsp; decide
        · rw [if_neg hsp]
          have hd2 : d ∈ (pyLower (pyStrip raw)).data := mem_pyStrip _ _ hd
          simp only [pyLower, data_mk, List.mem_map] at hd2
          obtain ⟨x, _, hxd⟩ := hd2
          subst hxd
          exact lowerChar_not_upper x
      · rw [if_neg hA] at hcb
        subst hcb
        decide
  · intro h
    unfold normalizeScope
    rw [h]
    decide

/-- C8 witness: a whitespace-only input strips to empty and is replaced by
the "general" scope. -/
theorem c8_witness : normalizeScope (" ") = ("general") :=
  (c8_scope_normalization (" ")).2.1 (by decide)

/-- C1: when the Cloudinary put raises, the upload handler reports the
error to the caller, leaves the in-memory index exactly as it was, and
never reaches the index save. -/
theorem c1_put_failure_leaves_catalog_unchanged
    (idx : IndexDict) (e : String) (save : Except String Unit)
    (file_id scope original_name uploaded_at tags_txt : String)
    (dataLen : Int) :
    uploadHandler idx (.error e) save file_id scope original_name
        uploaded_at tags_txt dataLen =
      { newIdx := idx, saveAttempted := false,
        errorMsg := some (("Error subiendo a Cloudinary: ") ++ e) } := rfl

/-- C10: `add_file_record` is total on every index dict: it always produces
a `"files"` list with the new record at position 0, repairing a missing
`"files"` key to the empty list first. -/
theorem c10_add_file_record_total (idx : IndexDict) (r : FileRecord) :
    (add_file_record idx r).files? = some (r :: idx.filesD)
    ∧ (add_file_record { files? := none } r).files? = some [r] :=
  ⟨rfl, rfl⟩

/-- C4: every insert prepends (position 0), removal is order-preserving
(the remainder is a sublist of the original), and directly after a
successful upload the listing under the all-scopes sentinel and the empty
query starts with the new record. -/
theorem c4_newest_first_invariant :
    (∀ (idx : IndexDict) (r : FileRecord),
      (add_file_record idx r).filesD = r :: idx.filesD)
    ∧ (∀ (idx : IndexDict) (fid : String),
      (delete_file_record idx fid).filesD.Sublist idx.filesD)
    ∧ (∀ (idx : IndexDict) (res : UploadRes)
        (file_id scope original_name uploaded_at tags_txt : String)
        (dataLen : Int),
      (listing (uploadHandler idx (.ok res) (.ok ()) file_id scope
          original_name uploaded_at tags_txt dataLen).newIdx.filesD
          ("(todas)") ("")).head? =
        some (mkRecord file_id scope original_name uploaded_at tags_txt
          res dataLen)) := by
  refine ⟨fun idx r => rfl, fun idx fid => List.filter_sublist _, ?_⟩
  intro idx res file_id scope original_name uploaded_at tags_txt dataLen
  show (listing (mkRecord file_id scope original_name uploaded_at tags_txt
      res dataLen :: idx.filesD) ("(todas)") ("")).head? = _
  simp [listing, scopeKeep, matchesRec]

/-- C6: `delete_file_record` removes exactly the records with the given id,
preserves the relative order of the remainder, is a no-op on the files list
for an id that is not present, and is idempotent. -/
theorem c6_delete_by_id (idx : IndexDict) (fid : String) :
    ((delete_file_record idx fid).filesD.Sublist idx.filesD)
    ∧ (∀ f : FileRecord,
        f ∈ (delete_file_record idx fid).filesD ↔ f ∈ idx.filesD ∧ f.id ≠ fid)
    ∧ ((∀ f ∈ idx.filesD, f.id ≠ fid) →
        (delete_file_record idx fid).filesD = idx.filesD)
    ∧ delete_file_record (delete_file_record idx fid) fid =
        delete_file_record idx fid := by
  refine ⟨List.filter_sublist _, ?_, ?_, ?_⟩
  · intro f
    show f ∈ idx.filesD.filter (fun f => f.id != fid) ↔ _
    simp [List.mem_filter]
  · intro h
    show idx.filesD.filter (fun f => f.id != fid) = idx.filesD
    exact List.filter_eq_self.mpr (fun f hf => bne_iff_ne.mpr (h f hf))
  · show IndexDict.mk (some ((idx.filesD.filter (fun f => f.id != fid)).filter
        (fun f => f.id != fid))) = _
    rw [List.filter_eq_self.mpr (fun f hf => (List.mem_filter.mp hf).2)]
    rfl

/-- C6 witness: deleting an id that is absent from a concrete one-record
catalog leaves the files list unchanged. -/
theorem c6_witness :
    (delete_file_record { files? := some [sampleRec ("a") ("general") ("x")] }
        ("zz")).filesD =
      IndexDict.filesD { files? := some [sampleRec ("a") ("general") ("x")] } :=
  (c6_delete_by_id { files? := some [sampleRec ("a") ("general") ("x")] }
      ("zz")).2.2.1 (by decide)

/-- C7 counterexample: the claim as stated fails for a query with trailing
whitespace.  The code lowercases and strips the query, so the query
consisting of an x and a space matches a record named x, while the claimed
characterization (plain case-insensitive substring) rejects it. -/
theorem c7_counterexample_query_whitespace :
    listing [sampleRec ("a") ("general") ("x")] ("(todas)") ("x ") =
      [sampleRec ("a") ("general") ("x")]
    ∧ searchClaim [sampleRec ("a") ("general") ("x")] ("(todas)") ("x ") = [] :=
  ⟨by decide, by decide⟩

/-- C7 amended: search returns exactly the subsequence where the scope
filter is the sentinel or an exact scope match, and where the query is
empty or its lowercased, whitespace-stripped form is a substring of the
lowercased original name, space-joined tag list, or scope. -/
theorem c7_search_equals_amended_spec
    (files : List FileRecord) (scope_filter q : String) :
    listing files scope_filter q =
      files.filter (fun f => claimScopeKeep scope_filter f && amendedMatches f q) := by
  unfold listing
  apply List.filter_congr
  intro f _
  have hscope : scopeKeep scope_filter f = claimScopeKeep scope_filter f := by
    simp [scopeKeep, claimScopeKeep, bne, Bool.not_and, Bool.not_not]
  have hmatch : matchesRec f q = amendedMatches f q := by
    unfold matchesRec amendedMatches
    by_cases h : q = ("")
    · simp [h]
    · simp [h, beq_iff_eq]
  rw [hscope, hmatch]

/-- C9 counterexample: `all_scopes` does not always contain "general".  The
empty catalog yields an empty scope list, and a catalog whose only record
has scope "cliente_a" yields a list without "general". -/
theorem c9_counterexample_general_missing :
    all_scopes [] = []
    ∧ ("general") ∉ all_scopes []
    ∧ all_scopes [sampleRec ("a") ("cliente_a") ("x")] = [("cliente_a")]
    ∧ ("general") ∉ all_scopes [sampleRec ("a") ("cliente_a") ("x")] :=
  ⟨rfl, by decide, by decide, by decide⟩

/-- C9 amended: `all_scopes` returns the sorted duplicate-free list of the
scope values present in the catalog (empty for the empty catalog); it
contains a scope, "general" included, exactly when some record carries it. -/
theorem c9_scopes_sorted_distinct (files : List FileRecord) (s : String) :
    (s ∈ all_scopes files ↔ ∃ f ∈ files, f.scope = s)
    ∧ (all_scopes files).Sorted (fun a b : String => a ≤ b)
    ∧ (all_scopes files).Nodup := by
  match files with
  | [] => simp [all_scopes]
  | g :: gs =>
      refine ⟨?_, ?_, ?_⟩
      · show s ∈ List.insertionSort _ _ ↔ _
        rw [(List.perm_insertionSort _ _).mem_iff, List.mem_dedup,
          List.mem_map]
      · exact List.sorted_insertionSort _ _
      · exact ((List.perm_insertionSort _ _).nodup_iff).mpr (List.nodup_dedup _)

/-- C2 counterexample: when the blob delete raises, the delete handler as
written aborts before `delete_file_record`: the record stays in the
catalog, no save is attempted, and a fatal `st.error` is shown — against
the claim that the record is still removed and persisted with only a
warning. -/
theorem c2_counterexample_blob_failure_blocks_removal :
    deleteHandler { files? := some [sampleRec ("a") ("general") ("x")] }
        (.error ("network down")) (.ok ()) ("pid") ("a") =
      { newIdx := { files? := some [sampleRec ("a") ("general") ("x")] },
        saveAttempted := false,
        errorMsg := some (("No se pudo borrar: network down")) }
    ∧ sampleRec ("a") ("general") ("x") ∈
        (deleteHandler { files? := some [sampleRec ("a") ("general") ("x")] }
          (.error ("network down")) (.ok ()) ("pid") ("a")).newIdx.filesD :=
  ⟨by decide, by decide⟩

/-- C2 amended: a failure raised while deleting the backing blob (reachable
whenever the record carries a nonempty public id) aborts the delete
operation: the catalog record is not removed, the index save is never
attempted, and the error is surfaced as a fatal error message. -/
theorem c2_blob_delete_failure_aborts
    (idx : IndexDict) (e : String) (save : Except String Unit)
    (public_id file_id : String) (h : public_id ≠ ("")) :
    deleteHandler idx (.error e) save public_id file_id =
      { newIdx := idx, saveAttempted := false,
        errorMsg := some (("No se pudo borrar: ") ++ e) } := by
  unfold deleteHandler
  rw [if_pos (bne_iff_ne.mpr h)]

/-- C2 witness: the amended statement applied to a concrete index, error
and public id. -/
theorem c2_witness :
    deleteHandler { files? := some [sampleRec ("a") ("general") ("x")] }
        (.error ("boom")) (.ok ()) ("pid") ("a") =
      { newIdx := { files? := some [sampleRec ("a") ("general") ("x")] },
        saveAttempted := false,
        errorMsg := some (("No se pudo borrar: ") ++ ("boom")) } :=
  c2_blob_delete_failure_aborts _ _ _ _ _ (by decide)

/-- `String.mk` of the data of a string. -/
theorem mk_data (s : String) : String.mk s.data = s := by cases s; rfl

/-- Characters with different code points are different. -/
theorem char_ne_of_toNat_ne {c d : Char} (h : c.toNat ≠ d.toNat) : c ≠ d :=
  fun e => h (by rw [e])

/-- A character is the image of its code point under `Char.ofNat`. -/
theorem char_eq_ofNat {c : Char} {n : Nat} (h : c.toNat = n) : c = Char.ofNat n := by
  rw [← h, Char.ofNat_toNat]

/-- A character with a code point off the JSON whitespace set is not JSON
whitespace. -/
theorem jsonWs_false_of {c : Char} (h32 : c.toNat ≠ 32) (h9 : c.toNat ≠ 9)
    (h10 : c.toNat ≠ 10) (h13 : c.toNat ≠ 13) : jsonWs c = false := by
  have e32 : (' ').toNat = 32 := by decide
  have e9 : ('\t').toNat = 9 := by decide
  have e10 : ('\n').toNat = 10 := by decide
  simp only [jsonWs, Bool.or_eq_false_iff, beq_eq_false_iff_ne]
  exact ⟨⟨⟨char_ne_of_toNat_ne (by omega), char_ne_of_toNat_ne (by omega)⟩,
    char_ne_of_toNat_ne (by omega)⟩, h13⟩

/-- The code point of a JSON whitespace character. -/
theorem ws_toNat {c : Char} (h : jsonWs c = true) :
    c.toNat = 32 ∨ c.toNat = 9 ∨ c.toNat = 10 ∨ c.toNat = 13 := by
  simp only [jsonWs, Bool.or_eq_true, beq_iff_eq] at h
  rcases h with ((h | h) | h) | h
  · subst h; left; decide
  · subst h; right; left; decide
  · subst h; right; right; left; decide
  · right; right; right; exact h

/-- JSON whitespace is not a digit. -/
theorem ws_not_digit {c : Char} (h : jsonWs c = true) : isDigitB c = false := by
  have := ws_toNat h
  simp only [isDigitB, Bool.and_eq_false_iff, decide_eq_false_iff_not]
  omega

/-- Skipping whitespace passes over an all-whitespace prefix. -/
theorem skipWs_append (ws rest : List Char)
    (h : ∀ c ∈ ws, jsonWs c = true) : skipWs (ws ++ rest) = skipWs rest := by
  induction ws with
  | nil => rfl
  | cons c t ih =>
      have hc : jsonWs c = true := h c (List.mem_cons_self c t)
      simp only [List.cons_append, skipWs, List.dropWhile_cons, hc, if_true]
      exact ih (fun d hd => h d (List.mem_cons_of_mem c hd))

/-- Skipping whitespace stops at a non-whitespace head. -/
theorem skipWs_cons {c : Char} (cs : List Char) (h : jsonWs c = false) :
    skipWs (c :: cs) = c :: cs := by
  simp [skipWs, List.dropWhile_cons, h]

/-- Indentation is all whitespace. -/
theorem indent_ws (k : Nat) : ∀ c ∈ indentChars k, jsonWs c = true := by
  intro c hc
  have : c = ' ' := List.eq_of_mem_replicate hc
  subst this; decide

/-- A newline followed by indentation is all whitespace. -/
theorem nl_indent_ws (k : Nat) : ∀ c ∈ '\n' :: indentChars k, jsonWs c = true := by
  intro c hc
  rcases List.mem_cons.mp hc with rfl | hc
  · decide
  · exact indent_ws k c hc

/-- `parseValue` is insensitive to leading whitespace. -/
theorem parseValue_ws (f : Nat) (ws rest : List Char)
    (h : ∀ c ∈ ws, jsonWs c = true) :
    parseValue f (ws ++ rest) = parseValue f rest := by
  cases f with
  | zero => rfl
  | succ f => simp only [parseValue, skipWs_append ws rest h]

/-- Code point of a decimal digit character. -/
theorem digitChar_toNat (n : Nat) (h : n < 10) : (digitChar n).toNat = 48 + n :=
  charToNat_ofNat _ (by omega)

/-- The decimal digits of `n` start with a digit character, nonzero when
`n` is nonzero. -/
theorem natChars_spec (n : Nat) :
    ∃ c cs, natChars n = c :: cs ∧ isDigitB c = true ∧ (0 < n → c ≠ '0') := by
  induction n using Nat.strong_induction_on with
  | _ n ih =>
    by_cases h : n < 10
    · refine ⟨digitChar n, [], by unfold natChars; simp [h], ?_, ?_⟩
      · simp only [isDigitB, digitChar_toNat n h, Bool.and_eq_true,
          decide_eq_true_eq]
        omega
      · intro hn
        apply char_ne_of_toNat_ne
        rw [digitChar_toNat n h]
        have : ('0').toNat = 48 := by decide
        omega
    · obtain ⟨c, cs, hc, hd, hz⟩ := ih (n / 10) (Nat.div_lt_self (by omega) (by omega))
      refine ⟨c, cs ++ [digitChar (n % 10)], ?_, hd, fun _ => hz (by omega)⟩
      conv_lhs => rw [natChars]
      simp [h, hc]

/-- Stopping condition of the digit scanner. -/
theorem parseDigits_stop (rest : List Char) (acc : Nat)
    (h : ∀ c, rest.head? = some c → isDigitB c = false) :
    parseDigits rest acc = (acc, rest) := by
  cases rest with
  | nil => rfl
  | cons c cs => simp [parseDigits, h c rfl]

/-- The digit scanner accumulates the value of a printed natural number. -/
theorem parseDigits_natChars (n : Nat) : ∀ (acc : Nat) (rest : List Char),
    parseDigits (natChars n ++ rest) acc =
      parseDigits rest (acc * 10 ^ (natChars n).length + n) := by
  induction n using Nat.strong_induction_on with
  | _ n ih =>
    intro acc rest
    by_cases h : n < 10
    · have hn : natChars n = [digitChar n] := by unfold natChars; simp [h]
      have hd : isDigitB (digitChar n) = true := by
        simp only [isDigitB, digitChar_toNat n h, Bool.and_eq_true,
          decide_eq_true_eq]
        omega
      rw [hn]
      simp only [List.cons_append, List.nil_append, parseDigits, hd, if_true,
        List.length_singleton, pow_one, digitChar_toNat n h]
      congr 1
      omega
    · have hn : natChars n = natChars (n / 10) ++ [digitChar (n % 10)] := by
        conv_lhs => rw [natChars]
        simp [h]
      have hd : isDigitB (digitChar (n % 10)) = true := by
        simp only [isDigitB, digitChar_toNat _ (by omega : n % 10 < 10),
          Bool.and_eq_true, decide_eq_true_eq]
        omega
      rw [hn, List.append_assoc, ih (n / 10) (Nat.div_lt_self (by omega) (by omega))]
      simp only [List.cons_append, List.nil_append, parseDigits, hd, if_true,
        digitChar_toNat _ (by omega : n % 10 < 10)]
      congr 1
      rw [List.length_append, List.length_singleton, pow_succ]
      have h10 : 10 * (n / 10) + n % 10 = n := Nat.div_add_mod n 10
      have : (acc * 10 ^ (natChars (n / 10)).length + n / 10) * 10 + (48 + n % 10 - 48) =
          acc * (10 ^ (natChars (n / 10)).length * 10) + (10 * (n / 10) + n % 10) := by
        ring_nf
        omega
      rw [this, h10]

/-- Parsing the printed digits of a natural number (followed by a
non-digit) yields the number back. -/
theorem parseNatPart_natChars (n : Nat) (rest : List Char)
    (h : ∀ c, rest.head? = some c → isDigitB c = false) :
    parseNatPart (natChars n ++ rest) = some (n, rest) := by
  by_cases h0 : n = 0
  · subst h0
    have hn : natChars 0 = ['0'] := by
      unfold natChars
      norm_num
      decide
    rw [hn]
    simp [parseNatPart]
  · obtain ⟨c, cs, hc, hdig, hz⟩ := natChars_spec n
    have hcz : c ≠ '0' := hz (by omega)
    have h1 : parseDigits (natChars n ++ rest) 0 =
        parseDigits rest (0 * 10 ^ (natChars n).length + n) :=
      parseDigits_natChars n 0 rest
    rw [parseDigits_stop rest _ h] at h1
    rw [hc, List.cons_append] at h1
    simp only [parseDigits, hdig, if_true, Nat.zero_mul, Nat.zero_add] at h1
    rw [hc, List.cons_append]
    simp only [parseNatPart]
    rw [if_neg hcz, if_pos hdig, h1]

/-- Parsing the printed form of an integer (followed by a non-digit)
yields the integer back. -/
theorem parseNumber_intChars (n : Int) (rest : List Char)
    (h : ∀ c, rest.head? = some c → isDigitB c = false) :
    parseNumber (intChars n ++ rest) = some (n, rest) := by
  by_cases hneg : n < 0
  · have hi : intChars n = '-' :: natChars n.natAbs := by
      unfold intChars
      simp [hneg]
    rw [hi, List.cons_append]
    simp only [parseNumber, if_pos rfl]
    rw [parseNatPart_natChars n.natAbs rest h]
    simp only [Option.map_some']
    have hval : (-(n.natAbs : Int)) = n := by omega
    rw [hval]
    simp
  · have hi : intChars n = natChars n.toNat := by
      unfold intChars
      simp [hneg]
    obtain ⟨c, cs, hc, hdig, _⟩ := natChars_spec n.toNat
    have hcm : c ≠ '-' := by
      apply char_ne_of_toNat_ne
      simp only [isDigitB, Bool.and_eq_true, decide_eq_true_eq] at hdig
      have : ('-').toNat = 45 := by decide
      omega
    rw [hi, hc, List.cons_append]
    simp only [parseNumber]
    rw [if_neg hcm, ← List.cons_append, ← hc, parseNatPart_natChars n.toNat rest h]
    simp only [Option.map_some']
    congr 2
    omega

/-- Decoding the 4-hex-digit escape of a control character. -/
theorem hex4_low (t : Nat) (h : t < 32) :
    hex4 ('0') ('0') (hexChar (t / 16)) (hexChar (t % 16)) = some t := by
  revert h
  revert t
  decide

/-- The string escaper is inverted by the string-body parser. -/
theorem parseStringBody_escape (cs rest : List Char) :
    parseStringBody (escapeString cs ++ rest) = some (cs, rest) := by
  induction cs with
  | nil =>
      show parseStringBody ('"' :: rest) = some ([], rest)
      rw [parseStringBody, if_pos rfl]
  | cons c cs ih =>
    show parseStringBody ((escChar c ++ escapeString cs) ++ rest) = _
    rw [List.append_assoc]
    unfold escChar
    by_cases h92 : c.toNat = 92
    · rw [if_pos h92, char_eq_ofNat h92]
      simp [parseStringBody, parseEsc, ih]
    · rw [if_neg h92]
      by_cases h34 : c.toNat = 34
      · rw [if_pos h34, char_eq_ofNat h34]
        simp [parseStringBody, parseEsc, ih]
      · rw [if_neg h34]
        by_cases h8 : c.toNat = 8
        · rw [if_pos h8, char_eq_ofNat h8]
          simp [parseStringBody, parseEsc, ih]
        · rw [if_neg h8]
          by_cases h12 : c.toNat = 12
          · rw [if_pos h12, char_eq_ofNat h12]
            simp [parseStringBody, parseEsc, ih]
          · rw [if_neg h12]
            by_cases h10 : c.toNat = 10
            · rw [if_pos h10, char_eq_ofNat h10]
              simp [parseStringBody, parseEsc, ih]
            · rw [if_neg h10]
              by_cases h13 : c.toNat = 13
              · rw [if_pos h13, char_eq_ofNat h13]
                simp [parseStringBody, parseEsc, ih]
              · rw [if_neg h13]
                by_cases h9 : c.toNat = 9
                · rw [if_pos h9, char_eq_ofNat h9]
                  simp [parseStringBody, parseEsc, ih]
                · rw [if_neg h9]
                  by_cases hlow : c.toNat < 32
                  · rw [if_pos hlow]
                    simp only [List.cons_append, List.nil_append]
                    simp [parseStringBody, parseEsc, parseUEsc,
                      hex4_low c.toNat hlow, ih,
                      (by omega : c.toNat < 55296), Char.ofNat_toNat]
                  · rw [if_neg hlow]
                    simp only [List.cons_append, List.nil_append]
                    rw [parseStringBody]
                    rw [if_neg (char_ne_of_toNat_ne (by
                      have : ('"').toNat = 34 := by decide
                      omega))]
                    rw [if_neg (char_ne_of_toNat_ne (by
                      have : ('\\').toNat = 92 := by decide
                      omega))]
                    rw [if_neg (by omega : ¬c.toNat < 32), ih]
                    rfl

/-- The decimal digits of `n` are all digit characters. -/
theorem natChars_digits (n : Nat) : ∀ c ∈ natChars n, isDigitB c = true := by
  induction n using Nat.strong_induction_on with
  | _ n ih =>
    intro c hc
    by_cases h : n < 10
    · rw [show natChars n = [digitChar n] by unfold natChars; simp [h]] at hc
      simp only [List.mem_singleton] at hc
      subst hc
      simp only [isDigitB, digitChar_toNat n h, Bool.and_eq_true,
        decide_eq_true_eq]
      omega
    · rw [show natChars n = natChars (n / 10) ++ [digitChar (n % 10)] by
        conv_lhs => rw [natChars]
        simp [h]] at hc
      rcases List.mem_append.mp hc with hc | hc
      · exact ih (n / 10) (Nat.div_lt_self (by omega) (by omega)) c hc
      · simp only [List.mem_singleton] at hc
        subst hc
        simp only [isDigitB, digitChar_toNat _ (by omega : n % 10 < 10),
          Bool.and_eq_true, decide_eq_true_eq]
        omega

/-- A digit character is not JSON whitespace, not a closing bracket, and
not one of the keyword or structure openers. -/
theorem digit_head_facts {c : Char} (h : isDigitB c = true) :
    jsonWs c = false ∧ c ≠ ']' := by
  simp only [isDigitB, Bool.and_eq_true, decide_eq_true_eq] at h
  constructor
  · exact jsonWs_false_of (by omega) (by omega) (by omega) (by omega)
  · apply char_ne_of_toNat_ne
    have : (']').toNat = 93 := by decide
    omega

/-- Every printed JSON value starts with a character that is neither JSON
whitespace nor a closing square bracket. -/
theorem printJson_head (k : Nat) (j : Json) :
    ∃ c cs, printJson k j = c :: cs ∧ jsonWs c = false ∧ c ≠ ']' := by
  cases j with
  | null =>
      exact ⟨'n', ['u', 'l', 'l'], by rw [printJson], by decide, by decide⟩
  | bool b =>
      cases b with
      | true =>
          exact ⟨'t', ['r', 'u', 'e'], by rw [printJson]; rfl, by decide, by decide⟩
      | false =>
          exact ⟨'f', ['a', 'l', 's', 'e'], by rw [printJson]; rfl, by decide,
            by decide⟩
  | num n =>
      by_cases hneg : n < 0
      · refine ⟨'-', natChars n.natAbs, ?_, by decide, by decide⟩
        rw [printJson]
        unfold intChars
        rw [if_pos hneg]
      · obtain ⟨c, cs, hc, hd, _⟩ := natChars_spec n.toNat
        obtain ⟨hws, hne⟩ := digit_head_facts hd
        refine ⟨c, cs, ?_, hws, hne⟩
        rw [printJson]
        unfold intChars
        rw [if_neg hneg, hc]
  | str s => exact ⟨'"', _, by rw [printJson], by decide, by decide⟩
  | arr items =>
      cases items with
      | nil => exact ⟨'[', _, by rw [printJson], by decide, by decide⟩
      | cons h t => exact ⟨'[', _, by rw [printJson], by decide, by decide⟩
  | obj fields =>
      cases fields with
      | nil => exact ⟨lbrace, _, by rw [printJson], by decide, by decide⟩
      | cons key v t => exact ⟨lbrace, _, by rw [printJson], by decide, by decide⟩

/-- Printed array items start with the printed first item. -/
theorem printArrItems_eq (k : Nat) (h : Json) (t : JsonArr) :
    ∃ tail, printArrItems k h t = printJson k h ++ tail := by
  cases t with
  | nil => exact ⟨[], by rw [printArrItems, List.append_nil]⟩
  | cons h2 t2 => exact ⟨_, by rw [printArrItems]⟩

/-- Printed object fields start with the opening quote of the first key. -/
theorem printObjItems_eq (k : Nat) (key : String) (v : Json) (t : JsonObj) :
    ∃ tail, printObjItems k key v t = '"' :: tail := by
  cases t with
  | nil => exact ⟨_, by rw [printObjItems]⟩
  | cons k2 v2 t2 => exact ⟨_, by rw [printObjItems, List.cons_append]⟩

/-- Parsing fuel is positive. -/
theorem fuelJ_pos (j : Json) : 1 ≤ fuelJ j := by
  cases j with
  | null => rw [fuelJ]
  | bool b => rw [fuelJ]
  | num n => rw [fuelJ]
  | str s => rw [fuelJ]
  | arr items => cases items with
      | nil => rw [fuelJ]
      | cons h t => rw [fuelJ]; omega
  | obj fields => cases fields with
      | nil => rw [fuelJ]
      | cons key v t => rw [fuelJ]; omega

/-- Array-items fuel is positive. -/
theorem fuelA_pos (h : Json) (t : JsonArr) : 1 ≤ fuelA h t := by
  cases t with
  | nil => rw [fuelA]; omega
  | cons h2 t2 => rw [fuelA]; omega

/-- Object-fields fuel is positive. -/
theorem fuelO_pos (key : String) (v : Json) (t : JsonObj) : 1 ≤ fuelO key v t := by
  cases t with
  | nil => rw [fuelO]; omega
  | cons k2 v2 t2 => rw [fuelO]; omega

mutual

/-- The fuel needed for a value is at most its printed length. -/
theorem fuelJ_le_print (k : Nat) (j : Json) : fuelJ j ≤ (printJson k j).length := by
  cases j with
  | null => rw [fuelJ, printJson]; decide
  | bool b => cases b with
      | true => rw [fuelJ, printJson]; decide
      | false => rw [fuelJ, printJson]; decide
  | num n =>
      rw [fuelJ, printJson]
      unfold intChars
      split
      · simp
      · obtain ⟨c, cs, hc, _, _⟩ := natChars_spec n.toNat
        rw [hc]
        simp
  | str s => rw [fuelJ, printJson]; simp
  | arr items => cases items with
      | nil => rw [fuelJ, printJson]; simp
      | cons h t =>
          have := fuelA_le_print (k + 1) h t
          rw [fuelJ, printJson]
          simp only [List.length_cons, List.length_append]
          omega
  | obj fields => cases fields with
      | nil => rw [fuelJ, printJson]; simp
      | cons key v t =>
          have := fuelO_le_print (k + 1) key v t
          rw [fuelJ, printJson]
          simp only [List.length_cons, List.length_append]
          omega
termination_by sizeOf j

/-- The fuel needed for array items is at most their printed length plus
one. -/
theorem fuelA_le_print (k : Nat) (h : Json) (t : JsonArr) :
    fuelA h t ≤ (printArrItems k h t).length + 1 := by
  cases t with
  | nil =>
      have := fuelJ_le_print k h
      rw [fuelA, printArrItems]
      omega
  | cons h2 t2 =>
      have h1 := fuelJ_le_print k h
      have h2 := fuelA_le_print k h2 t2
      rw [fuelA, printArrItems]
      simp only [List.length_append, List.length_cons]
      omega
termination_by 1 + sizeOf h + sizeOf t

/-- The fuel needed for object fields is at most their printed length plus
one. -/
theorem fuelO_le_print (k : Nat) (key : String) (v : Json) (t : JsonObj) :
    fuelO key v t ≤ (printObjItems k key v t).length + 1 := by
  cases t with
  | nil =>
      have := fuelJ_le_print k v
      rw [fuelO, printObjItems]
      simp only [List.length_cons, List.length_append]
      omega
  | cons k2 v2 t2 =>
      have h1 := fuelJ_le_print k v
      have h2 := fuelO_le_print k k2 v2 t2
      rw [fuelO, printObjItems]
      simp only [List.length_append, List.length_cons]
      omega
termination_by 1 + sizeOf v + sizeOf t

end

/-- Dispatch of the value parser on a head character that can only start a
number. -/
theorem parseValue_head (f : Nat) (c : Char) (r : List Char)
    (hn : c ≠ 'n') (ht : c ≠ 't') (hf : c ≠ 'f') (hq : c ≠ '"')
    (hbk : c ≠ '[') (hbr : c ≠ lbrace) (hws : jsonWs c = false) :
    parseValue (f + 1) (c :: r) =
      (if c = '-' || isDigitB c then
        (parseNumber (c :: r)).map (fun p => (Json.num p.1, p.2))
      else none) := by
  rw [parseValue, skipWs_cons _ hws]
  simp only [if_neg hn, if_neg ht, if_neg hf, if_neg hq, if_neg hbk, if_neg hbr]

/-- The value parser on a printed string opener. -/
theorem parseValue_str (f : Nat) (r : List Char) :
    parseValue (f + 1) ('"' :: r) =
      (parseStringBody r).map (fun p => (Json.str ⟨p.1⟩, p.2)) := by
  rw [parseValue, skipWs_cons _ (by decide)]
  rfl

/-- The value parser on an array opener. -/
theorem parseValue_arr (f : Nat) (r : List Char) :
    parseValue (f + 1) ('[' :: r) =
      (match skipWs r with
      | d :: r2 =>
          if d = ']' then some (.arr .nil, r2)
          else (parseArrItems f r).map (fun p => (.arr p.1, p.2))
      | [] => none) := by
  rw [parseValue, skipWs_cons _ (by decide)]
  rfl

/-- The value parser on an object opener. -/
theorem parseValue_obj (f : Nat) (r : List Char) :
    parseValue (f + 1) (lbrace :: r) =
      (match skipWs r with
      | d :: r2 =>
          if d = rbrace then some (.obj .nil, r2)
          else (parseObjItems f r).map (fun p => (.obj p.1, p.2))
      | [] => none) := by
  rw [parseValue, skipWs_cons _ (by decide)]
  rfl

/-- The value parser on the null keyword. -/
theorem parseValue_null (f : Nat) (r2 : List Char) :
    parseValue (f + 1) ('n' :: 'u' :: 'l' :: 'l' :: r2) = some (.null, r2) := by
  rw [parseValue, skipWs_cons _ (by decide)]
  rfl

/-- The value parser on the true keyword. -/
theorem parseValue_true (f : Nat) (r2 : List Char) :
    parseValue (f + 1) ('t' :: 'r' :: 'u' :: 'e' :: r2) = some (.bool true, r2) := by
  rw [parseValue, skipWs_cons _ (by decide)]
  rfl

/-- The value parser on the false keyword. -/
theorem parseValue_false (f : Nat) (r2 : List Char) :
    parseValue (f + 1) ('f' :: 'a' :: 'l' :: 's' :: 'e' :: r2) = some (.bool false, r2) := by
  rw [parseValue, skipWs_cons _ (by decide)]
  rfl

/-- The value parser ignores one leading whitespace character. -/
theorem parseValue_ws_cons (f : Nat) {c : Char} (rest : List Char)
    (h : jsonWs c = true) : parseValue f (c :: rest) = parseValue f rest := by
  have := parseValue_ws f [c] rest (by intro d hd; simp at hd; subst hd; exact h)
  simpa using this

/-- The head of whitespace followed by a non-digit delimiter is never a
digit. -/
theorem head_not_digit_of_ws {ws2 : List Char} {c0 : Char} (rest : List Char)
    (hws2 : ∀ c ∈ ws2, jsonWs c = true) (hc0 : isDigitB c0 = false) :
    ∀ c, (ws2 ++ c0 :: rest).head? = some c → isDigitB c = false := by
  intro c hc
  cases ws2 with
  | nil =>
      simp only [List.nil_append, List.head?_cons, Option.some_inj] at hc
      subst hc
      exact hc0
  | cons w t =>
      simp only [List.cons_append, List.head?_cons, Option.some_inj] at hc
      subst hc
      exact ws_not_digit (hws2 w (List.mem_cons_self w t))

/-- A digit character differs from every JSON value opener. -/
theorem digit_ne_openers {c : Char} (h48 : 48 ≤ c.toNat ∧ c.toNat ≤ 57) :
    c ≠ 'n' ∧ c ≠ 't' ∧ c ≠ 'f' ∧ c ≠ '"' ∧ c ≠ '[' ∧ c ≠ lbrace := by
  refine ⟨char_ne_of_toNat_ne ?_, char_ne_of_toNat_ne ?_, char_ne_of_toNat_ne ?_,
    char_ne_of_toNat_ne ?_, char_ne_of_toNat_ne ?_, char_ne_of_toNat_ne ?_⟩
  · have e : ('n').toNat = 110 := by decide
    omega
  · have e : ('t').toNat = 116 := by decide
    omega
  · have e : ('f').toNat = 102 := by decide
    omega
  · have e : ('"').toNat = 34 := by decide
    omega
  · have e : ('[').toNat = 91 := by decide
    omega
  · have e : lbrace.toNat = 123 := by decide
    omega

mutual

/-- The value parser inverts the printer: parsing a printed value (with
anything that cannot extend a number appended) returns the value and the
appended remainder. -/
theorem parse_print_val (j : Json) (k fuel : Nat) (rest : List Char)
    (hrest : ∀ c, rest.head? = some c → isDigitB c = false)
    (hfuel : fuelJ j ≤ fuel) :
    parseValue fuel (printJson k j ++ rest) = some (j, rest) := by
  obtain ⟨f, rfl⟩ : ∃ f, fuel = f + 1 :=
    ⟨fuel - 1, by have := fuelJ_pos j; omega⟩
  cases j with
  | null =>
      rw [printJson]
      show parseValue (f + 1) (('n' :: 'u' :: 'l' :: 'l' :: []) ++ rest) = _
      simp only [List.cons_append, List.nil_append]
      rw [parseValue_null]
  | bool b =>
      cases b with
      | true =>
          rw [printJson]
          show parseValue (f + 1) (('t' :: 'r' :: 'u' :: 'e' :: []) ++ rest) = _
          simp only [List.cons_append, List.nil_append]
          rw [parseValue_true]
      | false =>
          rw [printJson]
          show parseValue (f + 1)
            (('f' :: 'a' :: 'l' :: 's' :: 'e' :: []) ++ rest) = _
          simp only [List.cons_append, List.nil_append]
          rw [parseValue_false]
  | num n =>
      rw [printJson]
      by_cases hneg : n < 0
      · have hi : intChars n = '-' :: natChars n.natAbs := by
          unfold intChars
          rw [if_pos hneg]
        rw [hi, List.cons_append,
          parseValue_head f '-' _ (by decide) (by decide) (by decide)
            (by decide) (by decide) (by decide) (by decide)]
        rw [if_pos (by decide)]
        rw [← List.cons_append, ← hi, parseNumber_intChars n rest hrest]
        rfl
      · have hi : intChars n = natChars n.toNat := by
          unfold intChars
          rw [if_neg hneg]
        obtain ⟨c, cs, hc, hdig, _⟩ := natChars_spec n.toNat
        have h48 : 48 ≤ c.toNat ∧ c.toNat ≤ 57 := by
          simpa only [isDigitB, Bool.and_eq_true, decide_eq_true_eq] using hdig
        obtain ⟨e1, e2, e3, e4, e5, e6⟩ := digit_ne_openers h48
        rw [hi, hc, List.cons_append,
          parseValue_head f c _ e1 e2 e3 e4 e5 e6
            (jsonWs_false_of (by omega) (by omega) (by omega) (by omega))]
        rw [if_pos (by simp [hdig])]
        rw [← List.cons_append, ← hc, ← hi, parseNumber_intChars n rest hrest]
        rfl
  | str s =>
      rw [printJson]
      simp only [List.cons_append, List.append_assoc]
      rw [parseValue_str, parseStringBody_escape s.data rest]
      simp only [Option.map_some', mk_data]
  | arr items =>
      cases items with
      | nil =>
          rw [printJson]
          simp only [List.cons_append, List.nil_append]
          rw [parseValue_arr, skipWs_cons _ (by decide)]
          dsimp only
          rw [if_pos rfl]
      | cons h t =>
          rw [fuelJ] at hfuel
          rw [printJson]
          simp only [List.cons_append, List.append_assoc, List.nil_append,
            List.singleton_append]
          rw [parseValue_arr]
          obtain ⟨tail, htail⟩ := printArrItems_eq (k + 1) h t
          obtain ⟨c0, cs0, hc0, hws0, hne0⟩ := printJson_head (k + 1) h
          have hskip : skipWs ('\n' :: (indentChars (k + 1) ++
              (printArrItems (k + 1) h t ++
                ('\n' :: (indentChars k ++ (']' :: rest)))))) =
              c0 :: (cs0 ++ (tail ++ ('\n' :: (indentChars k ++ (']' :: rest))))) := by
            rw [show ('\n' :: (indentChars (k + 1) ++
                (printArrItems (k + 1) h t ++
                  ('\n' :: (indentChars k ++ (']' :: rest)))))) =
                (('\n' :: indentChars (k + 1)) ++
                  (printArrItems (k + 1) h t ++
                    ('\n' :: (indentChars k ++ (']' :: rest))))) from by
              simp]
            rw [skipWs_append _ _ (nl_indent_ws (k + 1)), htail, hc0]
            simp only [List.cons_append, List.append_assoc]
            rw [skipWs_cons _ hws0]
          rw [hskip]
          have harr := parse_print_arr h t (k + 1) f ('\n' :: indentChars (k + 1))
            ('\n' :: indentChars k) rest (nl_indent_ws (k + 1)) (nl_indent_ws k)
            (by omega)
          simp only [List.cons_append, List.append_assoc] at harr
          dsimp only
          rw [if_neg hne0, harr]
          rfl
  | obj fields =>
      cases fields with
      | nil =>
          rw [printJson]
          simp only [List.cons_append, List.nil_append]
          rw [parseValue_obj, skipWs_cons _ (by decide)]
          dsimp only
          rw [if_pos rfl]
      | cons key v t =>
          rw [fuelJ] at hfuel
          rw [printJson]
          simp only [List.cons_append, List.append_assoc, List.nil_append,
            List.singleton_append]
          rw [parseValue_obj]
          obtain ⟨tail, htail⟩ := printObjItems_eq (k + 1) key v t
          have hskip : skipWs ('\n' :: (indentChars (k + 1) ++
              (printObjItems (k + 1) key v t ++
                ('\n' :: (indentChars k ++ (rbrace :: rest)))))) =
              '"' :: (tail ++ ('\n' :: (indentChars k ++ (rbrace :: rest)))) := by
            rw [show ('\n' :: (indentChars (k + 1) ++
                (printObjItems (k + 1) key v t ++
                  ('\n' :: (indentChars k ++ (rbrace :: rest)))))) =
                (('\n' :: indentChars (k + 1)) ++
                  (printObjItems (k + 1) key v t ++
                    ('\n' :: (indentChars k ++ (rbrace :: rest))))) from by
              simp]
            rw [skipWs_append _ _ (nl_indent_ws (k + 1)), htail]
            simp only [List.cons_append, List.append_assoc]
            rw [skipWs_cons _ (by decide)]
          rw [hskip]
          have hobj := parse_print_obj key v t (k + 1) f ('\n' :: indentChars (k + 1))
            ('\n' :: indentChars k) rest (nl_indent_ws (k + 1)) (nl_indent_ws k)
            (by omega)
          simp only [List.cons_append, List.append_assoc] at hobj
          dsimp only
          rw [if_neg (by decide : ¬('"' : Char) = rbrace), hobj]
          rfl
termination_by sizeOf j

/-- The array-items parser inverts the printed items followed by the
closing bracket. -/
theorem parse_print_arr (h : Json) (t : JsonArr) (k f : Nat)
    (ws1 ws2 rest : List Char) (hws1 : ∀ c ∈ ws1, jsonWs c = true)
    (hws2 : ∀ c ∈ ws2, jsonWs c = true) (hfuel : fuelA h t ≤ f) :
    parseArrItems f (ws1 ++ (printArrItems k h t ++ (ws2 ++ (']' :: rest)))) =
      some (JsonArr.cons h t, rest) := by
  obtain ⟨f', rfl⟩ : ∃ f', f = f' + 1 :=
    ⟨f - 1, by have := fuelA_pos h t; omega⟩
  cases t with
  | nil =>
      rw [fuelA] at hfuel
      rw [printArrItems, parseArrItems, parseValue_ws f' ws1 _ hws1]
      rw [parse_print_val h k f' (ws2 ++ (']' :: rest))
        (head_not_digit_of_ws rest hws2 (by decide)) (by omega)]
      dsimp only
      rw [skipWs_append _ _ hws2, skipWs_cons _ (by decide)]
      dsimp only
      rw [if_neg (by decide : ¬(']' : Char) = ','), if_pos rfl]
  | cons h2 t2 =>
      rw [fuelA] at hfuel
      rw [printArrItems, parseArrItems]
      simp only [List.cons_append, List.append_assoc]
      rw [parseValue_ws f' ws1 _ hws1]
      rw [parse_print_val h k f'
        (',' :: ('\n' :: (indentChars k ++
          (printArrItems k h2 t2 ++ (ws2 ++ (']' :: rest))))))
        (by intro c hc
            simp only [List.head?_cons, Option.some_inj] at hc
            subst hc
            decide)
        (by omega)]
      dsimp only
      rw [skipWs_cons _ (by decide)]
      dsimp only
      rw [if_pos rfl]
      have hrec := parse_print_arr h2 t2 k f' ('\n' :: indentChars k) ws2 rest
        (nl_indent_ws k) hws2 (by omega)
      simp only [List.cons_append, List.append_assoc] at hrec ⊢
      rw [hrec]
      rfl
termination_by 1 + sizeOf h + sizeOf t

/-- The object-fields parser inverts the printed fields followed by the
closing bracket. -/
theorem parse_print_obj (key : String) (v : Json) (t : JsonObj) (k f : Nat)
    (ws1 ws2 rest : List Char) (hws1 : ∀ c ∈ ws1, jsonWs c = true)
    (hws2 : ∀ c ∈ ws2, jsonWs c = true) (hfuel : fuelO key v t ≤ f) :
    parseObjItems f (ws1 ++ (printObjItems k key v t ++ (ws2 ++ (rbrace :: rest)))) =
      some (JsonObj.cons key v t, rest) := by
  obtain ⟨f', rfl⟩ : ∃ f', f = f' + 1 :=
    ⟨f - 1, by have := fuelO_pos key v t; omega⟩
  cases t with
  | nil =>
      rw [fuelO] at hfuel
      rw [printObjItems, parseObjItems]
      simp only [List.cons_append, List.append_assoc]
      rw [skipWs_append _ _ hws1, skipWs_cons _ (by decide)]
      dsimp only
      rw [if_pos rfl]
      rw [parseStringBody_escape key.data _]
      dsimp only
      rw [skipWs_cons _ (by decide)]
      dsimp only
      rw [if_pos rfl]
      rw [parseValue_ws_cons f' _ (by decide)]
      rw [parse_print_val v k f' (ws2 ++ (rbrace :: rest))
        (head_not_digit_of_ws rest hws2 (by decide)) (by omega)]
      dsimp only
      rw [skipWs_append _ _ hws2, skipWs_cons _ (by decide)]
      dsimp only
      rw [if_neg (by decide : ¬rbrace = ','), if_pos rfl, mk_data]
  | cons k2 v2 t2 =>
      rw [fuelO] at hfuel
      rw [printObjItems, parseObjItems]
      simp only [List.cons_append, List.append_assoc]
      rw [skipWs_append _ _ hws1, skipWs_cons _ (by decide)]
      dsimp only
      rw [if_pos rfl]
      rw [parseStringBody_escape key.data _]
      dsimp only
      rw [skipWs_cons _ (by decide)]
      dsimp only
      rw [if_pos rfl]
      rw [parseValue_ws_cons f' _ (by decide)]
      rw [parse_print_val v k f'
        (',' :: ('\n' :: (indentChars k ++
          (printObjItems k k2 v2 t2 ++ (ws2 ++ (rbrace :: rest))))))
        (by intro c hc
            simp only [List.head?_cons, Option.some_inj] at hc
            subst hc
            decide)
        (by omega)]
      dsimp only
      rw [skipWs_cons _ (by decide)]
      dsimp only
      rw [if_pos rfl]
      have hrec := parse_print_obj k2 v2 t2 k f' ('\n' :: indentChars k) ws2 rest
        (nl_indent_ws k) hws2 (by omega)
      simp only [List.cons_append, List.append_assoc] at hrec ⊢
      rw [hrec, mk_data]
      rfl
termination_by 1 + sizeOf v + sizeOf t

end

/-- Full round trip: parsing the exact json.dumps output of any value
returns the value. -/
theorem json_roundtrip (j : Json) : parseJson (dumps j) = some j := by
  unfold parseJson dumps
  have h := parse_print_val j 0 ((printJson 0 j).length + 1) []
    (by intro c hc; simp at hc)
    (by have := fuelJ_le_print 0 j; omega)
  rw [List.append_nil] at h
  rw [show (String.mk (printJson 0 j)).length = (printJson 0 j).length from rfl,
    show (String.mk (printJson 0 j)).data = printJson 0 j from rfl, h]
  rfl

/-- C5: for every catalog of records, including the empty one, saving the
index document through `upload_index_to_cloudinary` and loading it back
through `download_index_from_cloudinary` yields the same records in the
same order (the parsed document equals the saved document). -/
theorem c5_save_load_roundtrip (records : JsonArr) (st : CloudState)
    (hsave : st.saveFails = false) (hfetch : st.fetchFails = false) :
    ∃ st2, upload_index_to_cloudinary st (indexDocOf records) = some st2
      ∧ (download_index_from_cloudinary st2).1 = indexDocOf records := by
  refine ⟨{ st with indexBlob := some (dumps (indexDocOf records)) }, ?_, ?_⟩
  · simp [upload_index_to_cloudinary, hsave]
  · simp [download_index_from_cloudinary, hfetch, json_roundtrip]

/-- C5 witness: the round trip at the empty catalog on a fresh store. -/
theorem c5_witness :
    ∃ st2, upload_index_to_cloudinary
        { indexBlob := none, fetchFails := false, saveFails := false }
        (indexDocOf JsonArr.nil) = some st2
      ∧ (download_index_from_cloudinary st2).1 = indexDocOf JsonArr.nil :=
  c5_save_load_roundtrip JsonArr.nil
    { indexBlob := none, fetchFails := false, saveFails := false } rfl rfl

/-- C3 counterexample: on a backing store where the index has never been
written and where uploads fail, `download_index_from_cloudinary` still
returns the empty catalog without raising, but nothing is persisted — the
store is left exactly as it was, refuting the unconditional "persists that
empty document as a side effect". -/
theorem c3_counterexample_bootstrap_not_persisted :
    (download_index_from_cloudinary
        { indexBlob := none, fetchFails := false, saveFails := true }).1 =
      emptyIndexDoc
    ∧ (download_index_from_cloudinary
        { indexBlob := none, fetchFails := false, saveFails := true }).2 =
      { indexBlob := none, fetchFails := false, saveFails := true }
    ∧ ¬ (download_index_from_cloudinary
        { indexBlob := none, fetchFails := false, saveFails := true }).2.indexBlob =
      some (dumps emptyIndexDoc) := by
  refine ⟨rfl, rfl, ?_⟩
  intro h
  exact Option.noConfusion h

/-- C3 amended: whenever the remote index object does not exist, or its
fetch fails, or its contents do not parse, load returns the empty catalog
without raising and attempts to persist it; the empty document is actually
persisted whenever that save succeeds, while a save failure is swallowed
and the empty catalog is still returned. -/
theorem c3_load_failure_bootstraps (st : CloudState)
    (h : st.indexBlob = none ∨ st.fetchFails = true ∨
      (∃ s, st.indexBlob = some s ∧ parseJson s = none)) :
    (download_index_from_cloudinary st).1 = emptyIndexDoc
    ∧ (st.saveFails = false →
        (download_index_from_cloudinary st).2.indexBlob =
          some (dumps emptyIndexDoc)) := by
  obtain ⟨blob, fetch, save⟩ := st
  rcases h with h | h | ⟨s, hs, hp⟩
  · subst h
    cases fetch <;> cases save <;>
      simp [download_index_from_cloudinary, upload_index_to_cloudinary]
  · subst h
    cases save <;>
      simp [download_index_from_cloudinary, upload_index_to_cloudinary]
  · subst hs
    cases fetch <;> cases save <;>
      simp [download_index_from_cloudinary, upload_index_to_cloudinary, hp]

/-- C3 witness: on a fresh store with working uploads, load returns the
empty catalog and persists its serialized form. -/
theorem c3_witness :
    (download_index_from_cloudinary
        { indexBlob := none, fetchFails := false, saveFails := false }).1 =
      emptyIndexDoc
    ∧ (download_index_from_cloudinary
        { indexBlob := none, fetchFails := false, saveFails := false }).2.indexBlob =
      some (dumps emptyIndexDoc) :=
  ⟨(c3_load_failure_bootstraps
      { indexBlob := none, fetchFails := false, saveFails := false }
      (Or.inl rfl)).1,
   (c3_load_failure_bootstraps
      { indexBlob := none, fetchFails := false, saveFails := false }
      (Or.inl rfl)).2 rfl⟩
